import Mathlib

/-!
# Snake game session: a shallow embedding of `Tsk3.cpp`

The game logic of `class SnakeGame` (direction buffering, the discrete movement
step inside `update`, collision detection, growth and scoring, level and speed
progression, `spawnFood`, `resetGame`) is embedded as pure functions on a record
of the class's logic fields.

Modelling decisions:

* `int` fields are `Int`.  Signed overflow is undefined in C++; the theorem
  `reachable_int_range` shows that in every reachable session the score and the
  level stay far inside the 32-bit range, so no arithmetic of a run overflows.
  `score / 50` is C++ truncating division, `Int.tdiv`.
* `std::deque<Vector2i>` is a `List Vector2i`, front of the deque = head of the list.
* `snake.front()` of an empty deque is undefined: `step` returns `none` there.
* `float snakeSpeed` is a value of an abstract type `F` with the two operations
  and three literals the code uses (`FloatOps`); no property of floating-point
  arithmetic is assumed.
* The Mersenne-Twister generator with the two uniform distributions is a fixed
  stream `gen : Nat → Vector2i` of samples together with the count `drawn` of
  samples consumed so far; one sample is the pair `(xDist(gen), yDist(gen))`.
* The elapsed-time test `timeSinceLastUpdate > seconds(snakeSpeed)` of `update`
  is an input `elapsed : Bool` of each call.
* Window, textures, fonts, text and sounds are not part of the model.
-/

/-! ## Constants and data -/

def WINDOW_WIDTH : Int := 800
def WINDOW_HEIGHT : Int := 600
def GRID_SIZE : Int := 20
def GRID_WIDTH : Int := Int.tdiv WINDOW_WIDTH GRID_SIZE
def GRID_HEIGHT : Int := Int.tdiv WINDOW_HEIGHT GRID_SIZE

inductive Direction where
  | UP
  | DOWN
  | LEFT
  | RIGHT
  deriving DecidableEq, Repr

/-- The `sf::Vector2i` of the source: a pair of integers, default `(0, 0)`. -/
structure Vector2i where
  x : Int := 0
  y : Int := 0
  deriving DecidableEq, Repr

/-- The float operations and literals that the game applies to `snakeSpeed`. -/
structure FloatOps (F : Type) where
  /-- Single-precision subtraction. -/
  sub : F → F → F
  /-- The `std::max` of two floats. -/
  max : F → F → F
  /-- The literal `0.15f`. -/
  lit_0_15 : F
  /-- The literal `0.05f`. -/
  lit_0_05 : F
  /-- The literal `0.02f`. -/
  lit_0_02 : F

/-- An instance of the float operations for evaluating concrete sessions: intervals counted
in whole hundredths of a second. -/
def centiseconds : FloatOps Int where
  sub := fun a b => a - b
  max := fun a b => if a < b then b else a
  lit_0_15 := 15
  lit_0_05 := 5
  lit_0_02 := 2

/-- The logic fields of `class SnakeGame`, with `drawn` standing for the state of the
random generator (the number of samples taken from the stream so far). -/
structure SnakeGame (F : Type) where
  snakeSpeed : F
  score : Int
  level : Int
  gameOver : Bool
  paused : Bool
  snake : List Vector2i
  currentDir : Direction
  nextDir : Direction
  food : Vector2i
  foodSpawned : Bool
  drawn : Nat
  deriving DecidableEq

/-- Key codes of `sf::Keyboard` that the game distinguishes; `Other` is any other key. -/
inductive Key where
  | Up
  | Down
  | Left
  | Right
  | P
  | R
  | Other
  deriving DecidableEq, Repr

/-- Events polled from the window; `Other` is any event type the game ignores. -/
inductive Event where
  | Closed
  | KeyPressed (code : Key)
  | Other
  deriving DecidableEq, Repr

namespace SnakeGame

variable {F : Type}

/-- The three segments pushed by the constructor and by `resetGame`. -/
def initialSnake : List Vector2i :=
  [⟨5, Int.tdiv GRID_HEIGHT 2⟩, ⟨4, Int.tdiv GRID_HEIGHT 2⟩, ⟨3, Int.tdiv GRID_HEIGHT 2⟩]

/-- The state built by the constructor `SnakeGame::SnakeGame()`: `food` is
default-constructed and `spawnFood` is not called. -/
def ctor (fl : FloatOps F) : SnakeGame F where
  snakeSpeed := fl.lit_0_15
  score := 0
  level := 1
  gameOver := false
  paused := false
  snake := initialSnake
  currentDir := Direction.RIGHT
  nextDir := Direction.RIGHT
  food := {}
  foodSpawned := false
  drawn := 0

/-! ## spawnFood -/

def maxAttempts : Nat := 100

/-- Local variables of `spawnFood` together with the fields its loop writes. -/
structure SpawnVars where
  food : Vector2i
  validPosition : Bool
  attempts : Nat
  drawn : Nat
  deriving DecidableEq

/-- The `while (!validPosition && attempts < maxAttempts)` loop of `spawnFood`,
unrolled at most `fuel` times. -/
def spawnFoodLoop (gen : Nat → Vector2i) (snake : List Vector2i) : Nat → SpawnVars → SpawnVars
  | 0, v => v
  | fuel + 1, v =>
    if !v.validPosition && decide (v.attempts < maxAttempts) then
      let food := gen v.drawn
      let validPosition := !(snake.any (fun segment => segment == food))
      spawnFoodLoop gen snake fuel
        { food := food, validPosition := validPosition,
          attempts := v.attempts + 1, drawn := v.drawn + 1 }
    else v

/-- The variables at the exit of the loop of `spawnFood` (`maxAttempts` unrollings suffice,
see `spawnFoodLoop_exit`). -/
def spawnFoodVars (gen : Nat → Vector2i) (g : SnakeGame F) : SpawnVars :=
  spawnFoodLoop gen g.snake maxAttempts
    { food := g.food, validPosition := false, attempts := 0, drawn := g.drawn }

/-- The method `SnakeGame::spawnFood`. -/
def spawnFood (gen : Nat → Vector2i) (g : SnakeGame F) : SnakeGame F :=
  let v := spawnFoodVars gen g
  let g1 := { g with food := v.food, drawn := v.drawn }
  if v.validPosition then { g1 with foodSpawned := true } else g1

/-! ## resetGame and processEvents -/

/-- The method `SnakeGame::resetGame`. -/
def resetGame (fl : FloatOps F) (gen : Nat → Vector2i) (g : SnakeGame F) : SnakeGame F :=
  spawnFood gen
    { g with
      snake := initialSnake
      currentDir := Direction.RIGHT
      nextDir := Direction.RIGHT
      score := 0
      level := 1
      snakeSpeed := fl.lit_0_15
      gameOver := false
      paused := false
      foodSpawned := false }

/-- The `switch (event.key.code)` of `processEvents`. -/
def directionKey (code : Key) (g : SnakeGame F) : SnakeGame F :=
  match code with
  | Key.Up => if g.currentDir ≠ Direction.DOWN then { g with nextDir := Direction.UP } else g
  | Key.Down => if g.currentDir ≠ Direction.UP then { g with nextDir := Direction.DOWN } else g
  | Key.Left => if g.currentDir ≠ Direction.RIGHT then { g with nextDir := Direction.LEFT } else g
  | Key.Right => if g.currentDir ≠ Direction.LEFT then { g with nextDir := Direction.RIGHT } else g
  | _ => g

/-- The body of `if (event.type == Event::KeyPressed)` in `processEvents`. -/
def keyPressed (fl : FloatOps F) (gen : Nat → Vector2i) (code : Key) (g : SnakeGame F) :
    SnakeGame F :=
  let g1 := if g.gameOver && decide (code = Key.R) then resetGame fl gen g else g
  let g2 := if code = Key.P then { g1 with paused := !g1.paused } else g1
  if !g2.paused && !g2.gameOver then directionKey code g2 else g2

/-- One pass of the `while (window.pollEvent(event))` body; closing the window touches
no logic field. -/
def handleEvent (fl : FloatOps F) (gen : Nat → Vector2i) (g : SnakeGame F) : Event → SnakeGame F
  | Event.KeyPressed code => keyPressed fl gen code g
  | _ => g

/-- The method `SnakeGame::processEvents` on the list of pending events. -/
def processEvents (fl : FloatOps F) (gen : Nat → Vector2i) (events : List Event)
    (g : SnakeGame F) : SnakeGame F :=
  events.foldl (handleEvent fl gen) g

/-! ## update -/

/-- The `switch (currentDir)` of `update` applied to the front segment. -/
def moveHead (d : Direction) (front : Vector2i) : Vector2i :=
  match d with
  | Direction.UP => { front with y := front.y - 1 }
  | Direction.DOWN => { front with y := front.y + 1 }
  | Direction.LEFT => { front with x := front.x - 1 }
  | Direction.RIGHT => { front with x := front.x + 1 }

/-- The wall test of `update`. -/
def hitsWall (p : Vector2i) : Bool :=
  decide (p.x < 0) || decide (p.x ≥ GRID_WIDTH) || decide (p.y < 0) || decide (p.y ≥ GRID_HEIGHT)

/-- The self-collision loop of `update`. -/
def hitsSnake (snake : List Vector2i) (p : Vector2i) : Bool :=
  snake.any (fun segment => segment == p)

/-- The food branch of `update`, entered after `snake.push_front(newHead)`. -/
def foodCheck (fl : FloatOps F) (newHead : Vector2i) (g : SnakeGame F) : SnakeGame F :=
  if newHead = g.food then
    let g1 := { g with score := g.score + 10 * g.level, foodSpawned := false }
    if Int.tdiv g1.score 50 > g1.level - 1 then
      { g1 with level := g1.level + 1,
                snakeSpeed := fl.max fl.lit_0_05 (fl.sub g1.snakeSpeed fl.lit_0_02) }
    else g1
  else { g with snake := g.snake.dropLast }

/-- The discrete step of `update`: the body of `if (timeSinceLastUpdate > seconds(snakeSpeed))`.
It is `none` exactly when `snake.front()` is taken of an empty snake. -/
def step (fl : FloatOps F) (gen : Nat → Vector2i) (g : SnakeGame F) : Option (SnakeGame F) :=
  match g.snake with
  | [] => none
  | front :: _ =>
    let g1 := { g with currentDir := g.nextDir }
    let newHead := moveHead g1.currentDir front
    if hitsWall newHead then some { g1 with gameOver := true }
    else if hitsSnake g1.snake newHead then some { g1 with gameOver := true }
    else
      let g2 := { g1 with snake := newHead :: g1.snake }
      let g3 := foodCheck fl newHead g2
      if !g3.foodSpawned then some (spawnFood gen g3) else some g3

/-- The method `SnakeGame::update`; `elapsed` is the outcome of the timer test. -/
def update (fl : FloatOps F) (gen : Nat → Vector2i) (elapsed : Bool) (g : SnakeGame F) :
    Option (SnakeGame F) :=
  if elapsed then step fl gen g else some g

/-- One iteration of the loop of `SnakeGame::run`, without `render`. -/
def runIteration (fl : FloatOps F) (gen : Nat → Vector2i) (events : List Event) (elapsed : Bool)
    (g : SnakeGame F) : Option (SnakeGame F) :=
  let g1 := processEvents fl gen events g
  if !g1.gameOver && !g1.paused then update fl gen elapsed g1 else some g1

/-! ## Vocabulary of the specification -/

/-- A segment lies on the grid: `0 ≤ x < GRID_WIDTH` and `0 ≤ y < GRID_HEIGHT`. -/
def inGrid (p : Vector2i) : Prop :=
  0 ≤ p.x ∧ p.x < GRID_WIDTH ∧ 0 ≤ p.y ∧ p.y < GRID_HEIGHT

instance (p : Vector2i) : Decidable (inGrid p) :=
  inferInstanceAs (Decidable (0 ≤ p.x ∧ p.x < GRID_WIDTH ∧ 0 ≤ p.y ∧ p.y < GRID_HEIGHT))

/-- The unit vector of a direction as the specification lists it:
UP = (0,-1), DOWN = (0,+1), LEFT = (-1,0), RIGHT = (+1,0). -/
def unitVector : Direction → Vector2i
  | Direction.UP => ⟨0, -1⟩
  | Direction.DOWN => ⟨0, 1⟩
  | Direction.LEFT => ⟨-1, 0⟩
  | Direction.RIGHT => ⟨1, 0⟩

/-- The reverse of a direction, in the sense of the specification. -/
def opposite : Direction → Direction
  | Direction.UP => Direction.DOWN
  | Direction.DOWN => Direction.UP
  | Direction.LEFT => Direction.RIGHT
  | Direction.RIGHT => Direction.LEFT

/-- The arrow key that asks for a direction. -/
def arrowKey : Direction → Key
  | Direction.UP => Key.Up
  | Direction.DOWN => Key.Down
  | Direction.LEFT => Key.Left
  | Direction.RIGHT => Key.Right

/-- Handling a sequence of pressed arrow keys, one `KeyPressed` event each. -/
def pressArrows (fl : FloatOps F) (gen : Nat → Vector2i) (ds : List Direction)
    (g : SnakeGame F) : SnakeGame F :=
  processEvents fl gen (ds.map (fun d => Event.KeyPressed (arrowKey d))) g

/-- One iteration of the loop per entry: the pending events and the outcome of the timer test. -/
def play (fl : FloatOps F) (gen : Nat → Vector2i) :
    List (List Event × Bool) → SnakeGame F → Option (SnakeGame F)
  | [], g => some g
  | (events, elapsed) :: frames, g =>
    (runIteration fl gen events elapsed g).bind (play fl gen frames)

/-- The snake invariant of the data model: every segment on the grid, no coordinate twice,
at least three segments. -/
def SnakeOk (snake : List Vector2i) : Prop :=
  (∀ p ∈ snake, inGrid p) ∧ snake.Nodup ∧ 3 ≤ snake.length

/-- The food invariant of the data model: a spawned food is on the grid and on no segment. -/
def FoodOk (g : SnakeGame F) : Prop :=
  g.foodSpawned = true → inGrid g.food ∧ g.food ∉ g.snake

/-- Where the coordinate of an unspawned food can be: on a segment, or at the default
`(0, 0)` while the snake is still the constructor's and heads right. -/
def StaleFood (g : SnakeGame F) : Prop :=
  g.foodSpawned = false →
    g.food ∈ g.snake ∨
    (g.food = ⟨0, 0⟩ ∧ g.snake = initialSnake ∧ g.currentDir = Direction.RIGHT)

/-- Bounds on level and score in terms of the length of the snake. -/
def IntRange (g : SnakeGame F) : Prop :=
  1 ≤ g.level ∧ g.level + 2 ≤ g.snake.length ∧ 0 ≤ g.score ∧
  g.score ≤ 11980 * ((g.snake.length : Int) - 3)

/-- Sessions reachable from the constructor by key presses (restart included) and by
discrete steps taken while the session is neither over nor paused. -/
inductive Reachable (fl : FloatOps F) (gen : Nat → Vector2i) : SnakeGame F → Prop where
  | start : Reachable fl gen (ctor fl)
  | key (code : Key) {g : SnakeGame F} : Reachable fl gen g →
      Reachable fl gen (keyPressed fl gen code g)
  | tick {g g' : SnakeGame F} : Reachable fl gen g → g.gameOver = false → g.paused = false →
      step fl gen g = some g' → Reachable fl gen g'

/-! ## Concrete sessions and sample streams -/

/-- The stream whose every sample is the cell `(0, 0)`. -/
def genCorner : Nat → Vector2i := fun _ => ⟨0, 0⟩

/-- The stream that puts the first fifteen foods right in front of a snake running along
row 15, and every later sample on `(0, 0)`. -/
def genTrain : Nat → Vector2i := fun n => if n < 15 then ⟨7 + n, 15⟩ else ⟨0, 0⟩

/-- The scenario of the specification: snake `[(5,10),(4,10),(3,10)]` heading right, with a
spawned food away from `(6, 10)`. -/
def scenarioMove : SnakeGame Int :=
  { ctor centiseconds with
    snake := [⟨5, 10⟩, ⟨4, 10⟩, ⟨3, 10⟩], food := ⟨20, 20⟩, foodSpawned := true }

/-- The scenario of the specification with the food at `(6, 10)`. -/
def scenarioFood : SnakeGame Int :=
  { ctor centiseconds with
    snake := [⟨5, 10⟩, ⟨4, 10⟩, ⟨3, 10⟩], food := ⟨6, 10⟩, foodSpawned := true }

/-- A snake at the left wall that is about to move to `(-1, 10)`. -/
def scenarioWall : SnakeGame Int :=
  { ctor centiseconds with
    snake := [⟨0, 10⟩, ⟨0, 11⟩, ⟨1, 11⟩], currentDir := Direction.LEFT,
    nextDir := Direction.LEFT, food := ⟨20, 20⟩, foodSpawned := true }

/-- A snake curled in a 2 x 2 square whose head is about to enter the cell of its last
segment. -/
def scenarioTail : SnakeGame Int :=
  { ctor centiseconds with
    snake := [⟨5, 5⟩, ⟨5, 6⟩, ⟨6, 6⟩, ⟨6, 5⟩], currentDir := Direction.UP,
    nextDir := Direction.RIGHT, food := ⟨20, 20⟩, foodSpawned := true }

/-- Sixteen iterations with the timer elapsed and no input. -/
def framesTrain : List (List Event × Bool) := List.replicate 16 ([], true)

/-- The session after `framesTrain` on the stream `genTrain`: fifteen foods eaten, score 470,
level 9, so that `470 / 50 = 9` still exceeds `level - 1 = 8`. -/
def lagged : SnakeGame Int :=
  { ctor centiseconds with
    snakeSpeed := 5, score := 470, level := 9,
    snake := (List.range 18).map (fun i => (⟨21 - (i : Int), 15⟩ : Vector2i)),
    food := ⟨0, 0⟩, foodSpawned := true, drawn := 16 }

/-- The up arrow, then sixteen iterations with the timer elapsed: the snake runs into the
upper wall. -/
def framesCrash : List (List Event × Bool) :=
  ([Event.KeyPressed Key.Up], true) :: List.replicate 15 ([], true)

/-- The session after `framesCrash` on the stream `genCorner`: over at the upper wall. -/
def crashed : SnakeGame Int :=
  { ctor centiseconds with
    gameOver := true, snake := [⟨5, 0⟩, ⟨5, 1⟩, ⟨5, 2⟩], currentDir := Direction.UP,
    nextDir := Direction.UP, food := ⟨0, 0⟩, foodSpawned := true, drawn := 1 }

end SnakeGame

/-! ## Theorems -/

namespace SnakeGame

variable {F : Type}

theorem GRID_WIDTH_eq : GRID_WIDTH = 40 := by decide
theorem GRID_HEIGHT_eq : GRID_HEIGHT = 30 := by decide

theorem hitsSnake_iff (snake : List Vector2i) (p : Vector2i) :
    hitsSnake snake p = true ↔ p ∈ snake := by
  unfold hitsSnake
  rw [List.any_eq_true]
  constructor
  · rintro ⟨q, hq, hqp⟩
    have : q = p := by simpa using hqp
    exact this ▸ hq
  · intro h
    exact ⟨p, h, by simp⟩

theorem hitsSnake_eq_false_iff (snake : List Vector2i) (p : Vector2i) :
    hitsSnake snake p = false ↔ p ∉ snake := by
  rw [← hitsSnake_iff, Bool.not_eq_true]

theorem hitsWall_eq_false_iff (p : Vector2i) : hitsWall p = false ↔ inGrid p := by
  unfold hitsWall inGrid
  simp only [Bool.or_eq_false_iff, decide_eq_false_iff_not, not_lt, ge_iff_le, not_le]
  tauto

/-- While every sample is on the snake the loop keeps drawing until `maxAttempts`. -/
theorem spawnFoodLoop_exhaust (gen : Nat → Vector2i) (snake : List Vector2i) :
    ∀ (fuel : Nat) (v : SpawnVars), v.validPosition = false →
      v.attempts + (fuel + 1) = maxAttempts →
      (∀ i, i < fuel + 1 → gen (v.drawn + i) ∈ snake) →
      spawnFoodLoop gen snake (fuel + 1) v =
        { food := gen (v.drawn + fuel), validPosition := false,
          attempts := maxAttempts, drawn := v.drawn + (fuel + 1) } := by
  intro fuel
  induction fuel with
  | zero =>
    intro v hv ha hall
    have h0 : hitsSnake snake (gen v.drawn) = true := (hitsSnake_iff _ _).2 (by simpa using hall 0 (by omega))
    have hlt : v.attempts < maxAttempts := by omega
    unfold hitsSnake at h0
    simp [spawnFoodLoop, hv, hlt, h0, ← ha]
  | succ n ih =>
    intro v hv ha hall
    have h0 : hitsSnake snake (gen v.drawn) = true := (hitsSnake_iff _ _).2 (by simpa using hall 0 (by omega))
    have hlt : v.attempts < maxAttempts := by omega
    unfold hitsSnake at h0
    rw [spawnFoodLoop]
    simp only [hv, hlt, h0, Bool.not_false, decide_True, Bool.and_self, if_true, Bool.not_true]
    rw [ih _ rfl (by simp; omega) (by
      intro i hi
      have := hall (i + 1) (by omega)
      simpa [Nat.add_assoc, Nat.add_comm 1 i] using this)]
    simp [Nat.add_assoc, Nat.add_comm 1]

/-- The loop stops at the first sample that is on no segment. -/
theorem spawnFoodLoop_first (gen : Nat → Vector2i) (snake : List Vector2i) :
    ∀ (k fuel : Nat) (v : SpawnVars), v.validPosition = false → k < fuel →
      v.attempts + k < maxAttempts →
      (∀ i, i < k → gen (v.drawn + i) ∈ snake) → gen (v.drawn + k) ∉ snake →
      spawnFoodLoop gen snake fuel v =
        { food := gen (v.drawn + k), validPosition := true,
          attempts := v.attempts + k + 1, drawn := v.drawn + k + 1 } := by
  intro k
  induction k with
  | zero =>
    intro fuel v hv hk ha _ hfree
    obtain ⟨n, rfl⟩ : ∃ n, fuel = n + 1 := ⟨fuel - 1, by omega⟩
    have h0 : hitsSnake snake (gen v.drawn) = false := (hitsSnake_eq_false_iff _ _).2 (by simpa using hfree)
    have hlt : v.attempts < maxAttempts := by omega
    unfold hitsSnake at h0
    rw [spawnFoodLoop]
    simp only [hv, hlt, h0, Bool.not_false, decide_True, Bool.and_self, if_true]
    cases n with
    | zero => simp [spawnFoodLoop]
    | succ m => simp [spawnFoodLoop]
  | succ k ih =>
    intro fuel v hv hk ha hall hfree
    obtain ⟨n, rfl⟩ : ∃ n, fuel = n + 1 := ⟨fuel - 1, by omega⟩
    have h0 : hitsSnake snake (gen v.drawn) = true := (hitsSnake_iff _ _).2 (by simpa using hall 0 (by omega))
    have hlt : v.attempts < maxAttempts := by omega
    unfold hitsSnake at h0
    rw [spawnFoodLoop]
    simp only [hv, hlt, h0, Bool.not_false, decide_True, Bool.and_self, if_true, Bool.not_true]
    rw [ih n _ rfl (by omega) (by simp; omega) (by
      intro i hi
      have := hall (i + 1) (by omega)
      simpa [Nat.add_assoc, Nat.add_comm 1 i] using this) (by
      simpa [Nat.add_assoc, Nat.add_comm 1 k] using hfree)]
    simp [Nat.add_assoc, Nat.add_comm 1]

theorem spawnFood_found (gen : Nat → Vector2i) (g : SnakeGame F) (k : Nat)
    (hk : k < maxAttempts) (hocc : ∀ i, i < k → gen (g.drawn + i) ∈ g.snake)
    (hfree : gen (g.drawn + k) ∉ g.snake) :
    spawnFood gen g =
      { g with food := gen (g.drawn + k), drawn := g.drawn + k + 1, foodSpawned := true } := by
  unfold spawnFood spawnFoodVars
  rw [spawnFoodLoop_first gen g.snake k maxAttempts _ rfl hk (by simpa using hk) hocc hfree]
  simp

theorem spawnFood_exhausted (gen : Nat → Vector2i) (g : SnakeGame F)
    (hocc : ∀ i, i < maxAttempts → gen (g.drawn + i) ∈ g.snake) :
    spawnFood gen g =
      { g with food := gen (g.drawn + 99), drawn := g.drawn + maxAttempts } := by
  unfold spawnFood spawnFoodVars
  have h := spawnFoodLoop_exhaust gen g.snake 99
    { food := g.food, validPosition := false, attempts := 0, drawn := g.drawn } rfl rfl hocc
  have e : maxAttempts = 99 + 1 := rfl
  rw [e, h]
  simp

/-- Either some sample among the first `maxAttempts` is free, and then there is a first one,
or all of them are on the snake. -/
theorem first_free_or_none (gen : Nat → Vector2i) (snake : List Vector2i) (d : Nat) :
    (∃ k, k < maxAttempts ∧ (∀ i, i < k → gen (d + i) ∈ snake) ∧ gen (d + k) ∉ snake) ∨
    (∀ i, i < maxAttempts → gen (d + i) ∈ snake) := by
  by_cases h : ∃ k, k < maxAttempts ∧ gen (d + k) ∉ snake
  · left
    classical
    refine ⟨Nat.find h, (Nat.find_spec h).1, ?_, (Nat.find_spec h).2⟩
    intro i hi
    by_contra hni
    exact Nat.find_min h hi ⟨lt_trans hi (Nat.find_spec h).1, hni⟩
  · right
    intro i hi
    by_contra hni
    exact h ⟨i, hi, hni⟩

theorem spawnFoodLoop_exit (gen : Nat → Vector2i) (g : SnakeGame F) :
    (!(spawnFoodVars gen g).validPosition &&
      decide ((spawnFoodVars gen g).attempts < maxAttempts)) = false := by
  unfold spawnFoodVars
  rcases first_free_or_none gen g.snake g.drawn with ⟨k, hk, hocc, hfree⟩ | hocc
  · rw [spawnFoodLoop_first gen g.snake k maxAttempts _ rfl hk (by simpa using hk) hocc hfree]
    simp
  · have h := spawnFoodLoop_exhaust gen g.snake 99
      { food := g.food, validPosition := false, attempts := 0, drawn := g.drawn } rfl rfl hocc
    have e : maxAttempts = 99 + 1 := rfl
    rw [e, h]
    simp [maxAttempts]

/-- C5: `spawnFood` called with the food unspawned marks the food spawned exactly when one
of the first 100 samples is on no segment; then the food is the first such sample, it is on
no segment, and no later sample is drawn; otherwise exactly 100 samples are drawn and the
food stays unspawned. In both cases every field other than the food, its flag and the
generator is unchanged. -/
theorem C5_spawnFood (gen : Nat → Vector2i) (g : SnakeGame F) (hf : g.foodSpawned = false) :
    ((spawnFood gen g).foodSpawned = true ↔
        ∃ i, i < 100 ∧ gen (g.drawn + i) ∉ g.snake) ∧
    (∀ k, k < 100 → (∀ i, i < k → gen (g.drawn + i) ∈ g.snake) →
        gen (g.drawn + k) ∉ g.snake →
        spawnFood gen g =
          { g with food := gen (g.drawn + k), foodSpawned := true, drawn := g.drawn + (k + 1) } ∧
        (spawnFood gen g).food ∉ (spawnFood gen g).snake) ∧
    ((∀ i, i < 100 → gen (g.drawn + i) ∈ g.snake) →
        spawnFood gen g = { g with food := gen (g.drawn + 99), drawn := g.drawn + 100 } ∧
        (spawnFood gen g).foodSpawned = false) := by
  refine ⟨?_, ?_, ?_⟩
  · rcases first_free_or_none gen g.snake g.drawn with ⟨k, hk, hocc, hfree⟩ | hocc
    · rw [spawnFood_found gen g k hk hocc hfree]
      simp only [true_iff]
      exact ⟨k, hk, hfree⟩
    · rw [spawnFood_exhausted gen g hocc]
      simp only [hf]
      constructor
      · intro h; cases h
      · rintro ⟨i, hi, hni⟩
        exact absurd (hocc i hi) hni
  · intro k hk hocc hfree
    rw [spawnFood_found gen g k hk hocc hfree]
    exact ⟨rfl, hfree⟩
  · intro hocc
    rw [spawnFood_exhausted gen g hocc]
    exact ⟨rfl, hf⟩

theorem spawnFood_frame (gen : Nat → Vector2i) (g : SnakeGame F) :
    (spawnFood gen g).snake = g.snake ∧ (spawnFood gen g).score = g.score ∧
    (spawnFood gen g).level = g.level ∧ (spawnFood gen g).snakeSpeed = g.snakeSpeed ∧
    (spawnFood gen g).gameOver = g.gameOver ∧ (spawnFood gen g).paused = g.paused ∧
    (spawnFood gen g).currentDir = g.currentDir ∧ (spawnFood gen g).nextDir = g.nextDir := by
  unfold spawnFood
  simp only
  split <;> simp

/-- A step whose new head leaves the grid or lands on a segment only sets `gameOver`
(after the buffered direction has been applied). -/
theorem step_collide (fl : FloatOps F) (gen : Nat → Vector2i) (g : SnakeGame F)
    (front : Vector2i) (rest : List Vector2i) (hs : g.snake = front :: rest)
    (hc : ¬ inGrid (moveHead g.nextDir front) ∨ moveHead g.nextDir front ∈ g.snake) :
    step fl gen g = some { g with currentDir := g.nextDir, gameOver := true } := by
  unfold step
  rw [hs]
  simp only
  by_cases hw : hitsWall (moveHead g.nextDir front) = true
  · simp [hw, hs]
  · have hw' : hitsWall (moveHead g.nextDir front) = false := by simpa using hw
    have hin : inGrid (moveHead g.nextDir front) := (hitsWall_eq_false_iff _).1 hw'
    have hmem : moveHead g.nextDir front ∈ g.snake := hc.resolve_left (fun h => h hin)
    have hh : hitsSnake (front :: rest) (moveHead g.nextDir front) = true := by
      rw [hitsSnake_iff, ← hs]; exact hmem
    simp [hw', hh, hs]

/-- A non-colliding step is the food check on the pushed head, followed by `spawnFood`
when the food is then unspawned. -/
theorem step_free (fl : FloatOps F) (gen : Nat → Vector2i) (g : SnakeGame F)
    (front : Vector2i) (rest : List Vector2i) (hs : g.snake = front :: rest)
    (hin : inGrid (moveHead g.nextDir front)) (hself : moveHead g.nextDir front ∉ g.snake) :
    step fl gen g =
      some (if (foodCheck fl (moveHead g.nextDir front)
                { g with currentDir := g.nextDir,
                         snake := moveHead g.nextDir front :: g.snake }).foodSpawned = true
            then foodCheck fl (moveHead g.nextDir front)
                { g with currentDir := g.nextDir,
                         snake := moveHead g.nextDir front :: g.snake }
            else spawnFood gen (foodCheck fl (moveHead g.nextDir front)
                { g with currentDir := g.nextDir,
                         snake := moveHead g.nextDir front :: g.snake })) := by
  have hw : hitsWall (moveHead g.nextDir front) = false := (hitsWall_eq_false_iff _).2 hin
  have hh : hitsSnake (front :: rest) (moveHead g.nextDir front) = false := by
    rw [hitsSnake_eq_false_iff, ← hs]; exact hself
  unfold step
  rw [hs]
  simp only [hw, hh, Bool.false_eq_true, if_false]
  split <;> simp_all

/-- The step in which the new head is the food coordinate. -/
theorem step_eat (fl : FloatOps F) (gen : Nat → Vector2i) (g : SnakeGame F)
    (front : Vector2i) (rest : List Vector2i) (hs : g.snake = front :: rest)
    (hin : inGrid (moveHead g.nextDir front)) (hself : moveHead g.nextDir front ∉ g.snake)
    (hfood : moveHead g.nextDir front = g.food) :
    step fl gen g =
      some (spawnFood gen
        { g with
          currentDir := g.nextDir
          snake := moveHead g.nextDir front :: g.snake
          score := g.score + 10 * g.level
          foodSpawned := false
          level := if Int.tdiv (g.score + 10 * g.level) 50 > g.level - 1
                   then g.level + 1 else g.level
          snakeSpeed := if Int.tdiv (g.score + 10 * g.level) 50 > g.level - 1
                   then fl.max fl.lit_0_05 (fl.sub g.snakeSpeed fl.lit_0_02) else g.snakeSpeed }) := by
  rw [step_free fl gen g front rest hs hin hself]
  unfold foodCheck
  simp only [hfood, if_true]
  split <;> simp

/-- The step in which the new head is not the food coordinate. -/
theorem step_move (fl : FloatOps F) (gen : Nat → Vector2i) (g : SnakeGame F)
    (front : Vector2i) (rest : List Vector2i) (hs : g.snake = front :: rest)
    (hin : inGrid (moveHead g.nextDir front)) (hself : moveHead g.nextDir front ∉ g.snake)
    (hfood : moveHead g.nextDir front ≠ g.food) :
    step fl gen g =
      some (if g.foodSpawned = true
        then { g with currentDir := g.nextDir
                      snake := moveHead g.nextDir front :: g.snake.dropLast }
        else spawnFood gen
          { g with currentDir := g.nextDir
                   snake := moveHead g.nextDir front :: g.snake.dropLast }) := by
  rw [step_free fl gen g front rest hs hin hself]
  unfold foodCheck
  simp only [hfood, if_false]
  have hd : (moveHead g.nextDir front :: g.snake).dropLast
      = moveHead g.nextDir front :: g.snake.dropLast := by
    rw [hs]; rfl
  rw [hd]

theorem moveHead_unitVector (d : Direction) (p : Vector2i) :
    moveHead d p = ⟨p.x + (unitVector d).x, p.y + (unitVector d).y⟩ := by
  cases d <;> simp [moveHead, unitVector, Int.sub_eq_add_neg]

/-- Fields of the result of a non-colliding step that do not depend on the food. -/
theorem step_free_frame (fl : FloatOps F) (gen : Nat → Vector2i) (g : SnakeGame F)
    (front : Vector2i) (rest : List Vector2i) (hs : g.snake = front :: rest)
    (hin : inGrid (moveHead g.nextDir front)) (hself : moveHead g.nextDir front ∉ g.snake) :
    ∃ g', step fl gen g = some g' ∧ g'.gameOver = g.gameOver ∧ g'.paused = g.paused ∧
      g'.currentDir = g.nextDir ∧ g'.nextDir = g.nextDir := by
  by_cases hfood : moveHead g.nextDir front = g.food
  · refine ⟨_, step_eat fl gen g front rest hs hin hself hfood, ?_⟩
    simp [(spawnFood_frame gen _)]
  · refine ⟨_, step_move fl gen g front rest hs hin hself hfood, ?_⟩
    split <;> simp [(spawnFood_frame gen _)]

/-- C1: in a running session with a non-empty snake, a discrete step that does not collide
puts the new head (old head plus the unit vector of the applied direction) in front of the
whole old snake when the new head is the food position, and in front of the old snake
without its last segment otherwise; the length grows by one exactly in the first case, and
in the second case the score and the running state are unchanged. -/
theorem C1_step_moves_or_grows (fl : FloatOps F) (gen : Nat → Vector2i) (g : SnakeGame F)
    (front : Vector2i) (rest : List Vector2i) (hs : g.snake = front :: rest)
    (hover : g.gameOver = false) (hpaused : g.paused = false)
    (hin : inGrid (moveHead g.nextDir front)) (hself : moveHead g.nextDir front ∉ g.snake) :
    moveHead g.nextDir front
      = ⟨front.x + (unitVector g.nextDir).x, front.y + (unitVector g.nextDir).y⟩ ∧
    ∃ g', step fl gen g = some g' ∧ g'.currentDir = g.nextDir ∧
      g'.gameOver = false ∧ g'.paused = false ∧
      (moveHead g.nextDir front = g.food →
        g'.snake = moveHead g.nextDir front :: g.snake ∧
        g'.snake.length = g.snake.length + 1) ∧
      (moveHead g.nextDir front ≠ g.food →
        g'.snake = moveHead g.nextDir front :: g.snake.dropLast ∧
        g'.snake.length = g.snake.length ∧ g'.score = g.score) := by
  refine ⟨moveHead_unitVector _ _, ?_⟩
  obtain ⟨g', hg', ho, hp, hc, _⟩ := step_free_frame fl gen g front rest hs hin hself
  refine ⟨g', hg', hc, ho.trans hover, hp.trans hpaused, ?_, ?_⟩
  · intro hfood
    have h := step_eat fl gen g front rest hs hin hself hfood
    rw [hg'] at h
    have e := Option.some.inj h
    have hsn : g'.snake = moveHead g.nextDir front :: g.snake := by
      rw [e, (spawnFood_frame gen _).1]
    exact ⟨hsn, by rw [hsn]; simp⟩
  · intro hfood
    have h := step_move fl gen g front rest hs hin hself hfood
    rw [hg'] at h
    have e := Option.some.inj h
    have hsn : g'.snake = moveHead g.nextDir front :: g.snake.dropLast := by
      rw [e]; split <;> simp [(spawnFood_frame gen _)]
    have hsc : g'.score = g.score := by
      rw [e]; split <;> simp [(spawnFood_frame gen _)]
    refine ⟨hsn, ?_, hsc⟩
    rw [hsn, hs]
    simp

/-- C2: a discrete step of a session that is not over ends in `gameOver` exactly when the
new head is outside the grid or equals a segment of the snake as it was before the step
(the last segment included); a colliding step sets `gameOver` and leaves the snake, score,
level, speed interval, food position and food-spawned flag as they were. -/
theorem C2_step_game_over_iff (fl : FloatOps F) (gen : Nat → Vector2i) (g : SnakeGame F)
    (front : Vector2i) (rest : List Vector2i) (hs : g.snake = front :: rest)
    (hover : g.gameOver = false) :
    ∃ g', step fl gen g = some g' ∧
      (g'.gameOver = true ↔
        (¬ inGrid (moveHead g.nextDir front) ∨ moveHead g.nextDir front ∈ g.snake)) ∧
      (g.snake.getLast? = some (moveHead g.nextDir front) → g'.gameOver = true) ∧
      ((¬ inGrid (moveHead g.nextDir front) ∨ moveHead g.nextDir front ∈ g.snake) →
        g' = { g with currentDir := g.nextDir, gameOver := true } ∧
        g'.snake = g.snake ∧ g'.score = g.score ∧ g'.level = g.level ∧
        g'.snakeSpeed = g.snakeSpeed ∧ g'.food = g.food ∧
        g'.foodSpawned = g.foodSpawned) := by
  by_cases hc : ¬ inGrid (moveHead g.nextDir front) ∨ moveHead g.nextDir front ∈ g.snake
  · refine ⟨_, step_collide fl gen g front rest hs hc, ?_, ?_, ?_⟩
    · simp [hc]
    · intro _; rfl
    · intro _; exact ⟨rfl, rfl, rfl, rfl, rfl, rfl, rfl⟩
  · have hin : inGrid (moveHead g.nextDir front) := by
      by_contra h; exact hc (Or.inl h)
    have hself : moveHead g.nextDir front ∉ g.snake := fun h => hc (Or.inr h)
    obtain ⟨g', hg', ho, _⟩ := step_free_frame fl gen g front rest hs hin hself
    refine ⟨g', hg', ?_, ?_, ?_⟩
    · rw [ho, hover]
      simp [hc]
    · intro hl
      exact absurd (List.mem_of_getLast?_eq_some hl) hself
    · intro h; exact absurd h hc

/-- C3: in a non-colliding discrete step whose new head is the food position, with level `L`
and speed interval `s` before the step, the score grows by exactly `10 * L`; the level
becomes `L + 1` exactly when the new score divided by 50 exceeds `L - 1` and stays `L`
otherwise; the speed interval becomes `max(0.05, s - 0.02)` when the level rose and stays
`s` otherwise; and the result is the spawner run on the session with the food unspawned. -/
theorem C3_step_eat_scoring (fl : FloatOps F) (gen : Nat → Vector2i) (g : SnakeGame F)
    (front : Vector2i) (rest : List Vector2i) (hs : g.snake = front :: rest)
    (hin : inGrid (moveHead g.nextDir front)) (hself : moveHead g.nextDir front ∉ g.snake)
    (hfood : moveHead g.nextDir front = g.food) :
    ∃ g', step fl gen g = some g' ∧
      g'.score = g.score + 10 * g.level ∧
      (Int.tdiv g'.score 50 > g.level - 1 →
        g'.level = g.level + 1 ∧
        g'.snakeSpeed = fl.max fl.lit_0_05 (fl.sub g.snakeSpeed fl.lit_0_02)) ∧
      (¬ Int.tdiv g'.score 50 > g.level - 1 →
        g'.level = g.level ∧ g'.snakeSpeed = g.snakeSpeed) ∧
      g.level ≤ g'.level ∧ g'.level ≤ g.level + 1 ∧
      g' = spawnFood gen
        { g with
          currentDir := g.nextDir
          snake := moveHead g.nextDir front :: g.snake
          score := g'.score
          level := g'.level
          snakeSpeed := g'.snakeSpeed
          foodSpawned := false } := by
  refine ⟨_, step_eat fl gen g front rest hs hin hself hfood, ?_⟩
  obtain ⟨-, h2, h3, h4, -⟩ := spawnFood_frame gen
    { g with
      currentDir := g.nextDir
      snake := moveHead g.nextDir front :: g.snake
      score := g.score + 10 * g.level
      foodSpawned := false
      level := if Int.tdiv (g.score + 10 * g.level) 50 > g.level - 1
               then g.level + 1 else g.level
      snakeSpeed := if Int.tdiv (g.score + 10 * g.level) 50 > g.level - 1
               then fl.max fl.lit_0_05 (fl.sub g.snakeSpeed fl.lit_0_02) else g.snakeSpeed }
  rw [h2, h3, h4]
  refine ⟨rfl, ?_, ?_, ?_, ?_, rfl⟩
  · intro h; simp only at h; simp [h]
  · intro h; simp only at h; simp [h]
  · simp only; split <;> omega
  · simp only; split <;> omega

/-- In a session that is over the restart key runs `resetGame` and nothing else. -/
theorem keyPressed_restart (fl : FloatOps F) (gen : Nat → Vector2i) (g : SnakeGame F)
    (hover : g.gameOver = true) : keyPressed fl gen Key.R g = resetGame fl gen g := by
  unfold keyPressed
  have hp : (resetGame fl gen g).paused = false := by
    unfold resetGame; rw [(spawnFood_frame gen _).2.2.2.2.2.1]
  have ho : (resetGame fl gen g).gameOver = false := by
    unfold resetGame; rw [(spawnFood_frame gen _).2.2.2.2.1]
  simp [hover, hp, ho, directionKey]

/-- C7: handling the restart key in a session that is over gives the constructor's snake,
directions, score, level and speed interval, neither over nor paused, with the spawner run
on that snake; in a session that is not over the restart key changes nothing. -/
theorem C7_restart_key (fl : FloatOps F) (gen : Nat → Vector2i) (g : SnakeGame F) :
    (g.gameOver = true →
      keyPressed fl gen Key.R g = spawnFood gen
        { g with
          snake := [⟨5, Int.tdiv GRID_HEIGHT 2⟩, ⟨4, Int.tdiv GRID_HEIGHT 2⟩,
                    ⟨3, Int.tdiv GRID_HEIGHT 2⟩]
          currentDir := Direction.RIGHT
          nextDir := Direction.RIGHT
          score := 0
          level := 1
          snakeSpeed := fl.lit_0_15
          gameOver := false
          paused := false
          foodSpawned := false } ∧
      (keyPressed fl gen Key.R g).snake = (ctor fl).snake ∧
      (keyPressed fl gen Key.R g).currentDir = Direction.RIGHT ∧
      (keyPressed fl gen Key.R g).nextDir = Direction.RIGHT ∧
      (keyPressed fl gen Key.R g).score = 0 ∧
      (keyPressed fl gen Key.R g).level = 1 ∧
      (keyPressed fl gen Key.R g).snakeSpeed = fl.lit_0_15 ∧
      (keyPressed fl gen Key.R g).gameOver = false ∧
      (keyPressed fl gen Key.R g).paused = false) ∧
    (g.gameOver = false → keyPressed fl gen Key.R g = g) := by
  constructor
  · intro hover
    rw [keyPressed_restart fl gen g hover]
    unfold resetGame
    obtain ⟨h1, h2, h3, h4, h5, h6, h7, h8⟩ := spawnFood_frame gen
      { g with
        snake := initialSnake
        currentDir := Direction.RIGHT
        nextDir := Direction.RIGHT
        score := 0
        level := 1
        snakeSpeed := fl.lit_0_15
        gameOver := false
        paused := false
        foodSpawned := false }
    exact ⟨rfl, h1, h7, h8, h2, h3, h4, h5, h6⟩
  · intro hover
    unfold keyPressed
    simp [hover, directionKey]

/-- C8 (amended): handling the pause key flips the paused flag in every session, over or
not, and changes nothing else. -/
theorem C8_pause_key_always_toggles (fl : FloatOps F) (gen : Nat → Vector2i)
    (g : SnakeGame F) :
    keyPressed fl gen Key.P g = { g with paused := !g.paused } := by
  unfold keyPressed
  simp [directionKey]

/-- The result of handling a key: either a restart, or the session with possibly another
paused flag and another buffered direction, the latter never the reverse of the applied
direction unless it was buffered already. -/
theorem keyPressed_cases (fl : FloatOps F) (gen : Nat → Vector2i) (code : Key)
    (g : SnakeGame F) :
    (g.gameOver = true ∧ code = Key.R ∧ keyPressed fl gen code g = resetGame fl gen g) ∨
    (∃ p n, keyPressed fl gen code g = { g with paused := p, nextDir := n } ∧
      (n = g.nextDir ∨ n ≠ opposite g.currentDir)) := by
  by_cases hr : g.gameOver = true ∧ code = Key.R
  · left
    obtain ⟨hover, rfl⟩ := hr
    exact ⟨hover, rfl, keyPressed_restart fl gen g hover⟩
  · right
    have hg1 : (if g.gameOver && decide (code = Key.R) then resetGame fl gen g else g) = g := by
      have : (g.gameOver && decide (code = Key.R)) = false := by
        simpa using hr
      simp [this]
    unfold keyPressed
    rw [hg1]
    by_cases hP : code = Key.P
    · subst hP
      refine ⟨!g.paused, g.nextDir, ?_, Or.inl rfl⟩
      simp [directionKey]
    · simp only [hP, if_false]
      by_cases hrun : (!g.paused && !g.gameOver) = true
      · simp only [hrun, if_true]
        cases code <;> simp only [directionKey]
        · by_cases hd : g.currentDir ≠ Direction.DOWN
          · exact ⟨g.paused, Direction.UP, by simp [hd], Or.inr (by
              cases hc : g.currentDir <;> simp_all [opposite])⟩
          · exact ⟨g.paused, g.nextDir, by simp [hd], Or.inl rfl⟩
        · by_cases hd : g.currentDir ≠ Direction.UP
          · exact ⟨g.paused, Direction.DOWN, by simp [hd], Or.inr (by
              cases hc : g.currentDir <;> simp_all [opposite])⟩
          · exact ⟨g.paused, g.nextDir, by simp [hd], Or.inl rfl⟩
        · by_cases hd : g.currentDir ≠ Direction.RIGHT
          · exact ⟨g.paused, Direction.LEFT, by simp [hd], Or.inr (by
              cases hc : g.currentDir <;> simp_all [opposite])⟩
          · exact ⟨g.paused, g.nextDir, by simp [hd], Or.inl rfl⟩
        · by_cases hd : g.currentDir ≠ Direction.LEFT
          · exact ⟨g.paused, Direction.RIGHT, by simp [hd], Or.inr (by
              cases hc : g.currentDir <;> simp_all [opposite])⟩
          · exact ⟨g.paused, g.nextDir, by simp [hd], Or.inl rfl⟩
        · exact absurd rfl hP
        · exact ⟨g.paused, g.nextDir, rfl, Or.inl rfl⟩
        · exact ⟨g.paused, g.nextDir, rfl, Or.inl rfl⟩
      · simp only [hrun]
        exact ⟨g.paused, g.nextDir, rfl, Or.inl rfl⟩

theorem opposite_ne (d : Direction) : d ≠ opposite d := by
  cases d <;> simp [opposite]

/-- Every step, colliding or not, applies the buffered direction and keeps it buffered. -/
theorem step_dirs (fl : FloatOps F) (gen : Nat → Vector2i) (g g' : SnakeGame F)
    (h : step fl gen g = some g') : g'.currentDir = g.nextDir ∧ g'.nextDir = g.nextDir := by
  cases hs : g.snake with
  | nil => simp [step, hs] at h
  | cons front rest =>
    by_cases hc : ¬ inGrid (moveHead g.nextDir front) ∨ moveHead g.nextDir front ∈ g.snake
    · rw [step_collide fl gen g front rest hs hc] at h
      rw [← Option.some.inj h]
      exact ⟨rfl, rfl⟩
    · have hin : inGrid (moveHead g.nextDir front) := by
        by_contra h; exact hc (Or.inl h)
      have hself : moveHead g.nextDir front ∉ g.snake := fun h => hc (Or.inr h)
      obtain ⟨g2, hg2, _, _, h3, h4⟩ := step_free_frame fl gen g front rest hs hin hself
      rw [hg2] at h
      rw [← Option.some.inj h]
      exact ⟨h3, h4⟩

/-- The buffered direction of a reachable session is never the reverse of the applied one. -/
theorem reachable_dirs (fl : FloatOps F) (gen : Nat → Vector2i) (g : SnakeGame F)
    (hr : Reachable fl gen g) : g.nextDir ≠ opposite g.currentDir := by
  induction hr with
  | start => simp [ctor, opposite]
  | @key code g0 _ ih =>
    rcases keyPressed_cases fl gen code g0 with ⟨_, _, he⟩ | ⟨p, n, he, hn⟩
    · rw [he]
      unfold resetGame
      rw [(spawnFood_frame gen _).2.2.2.2.2.2.1, (spawnFood_frame gen _).2.2.2.2.2.2.2]
      simp [opposite]
    · rw [he]
      rcases hn with hn | hn
      · simpa [hn] using ih
      · simpa using hn
  | @tick g0 g1 _ _ _ hstep _ =>
    obtain ⟨h1, h2⟩ := step_dirs fl gen _ _ hstep
    rw [h1, h2]
    exact opposite_ne _

/-- Arrow keys leave the applied direction alone and keep the buffered direction away from
its reverse, provided it was so before. -/
theorem pressArrows_dirs (fl : FloatOps F) (gen : Nat → Vector2i) (ds : List Direction) :
    ∀ g : SnakeGame F, g.nextDir ≠ opposite g.currentDir →
      (pressArrows fl gen ds g).currentDir = g.currentDir ∧
      (pressArrows fl gen ds g).nextDir ≠ opposite g.currentDir := by
  induction ds with
  | nil => intro g h; exact ⟨rfl, h⟩
  | cons d ds ih =>
    intro g h
    have hstep : pressArrows fl gen (d :: ds) g
        = pressArrows fl gen ds (keyPressed fl gen (arrowKey d) g) := rfl
    rw [hstep]
    rcases keyPressed_cases fl gen (arrowKey d) g with ⟨_, hk, _⟩ | ⟨p, n, he, hn⟩
    · cases d <;> simp [arrowKey] at hk
    · have hcur : (keyPressed fl gen (arrowKey d) g).currentDir = g.currentDir := by rw [he]
      have hnx : (keyPressed fl gen (arrowKey d) g).nextDir
          ≠ opposite (keyPressed fl gen (arrowKey d) g).currentDir := by
        rw [he]
        rcases hn with hn | hn
        · simpa [hn] using h
        · simpa using hn
      obtain ⟨h1, h2⟩ := ih _ hnx
      rw [hcur] at h1 h2
      exact ⟨h1, h2⟩

/-- Pressing the arrow key of the reverse of the applied direction changes nothing. -/
theorem keyPressed_reverse (fl : FloatOps F) (gen : Nat → Vector2i) (g : SnakeGame F) :
    keyPressed fl gen (arrowKey (opposite g.currentDir)) g = g := by
  unfold keyPressed
  cases hc : g.currentDir <;> cases hp : g.paused <;> cases ho : g.gameOver <;>
    simp [opposite, arrowKey, directionKey, hc, hp, ho]

theorem step_total (fl : FloatOps F) (gen : Nat → Vector2i) (g : SnakeGame F)
    (h : g.snake ≠ []) : ∃ g', step fl gen g = some g' := by
  cases hs : g.snake with
  | nil => exact absurd hs h
  | cons front rest =>
    by_cases hc : ¬ inGrid (moveHead g.nextDir front) ∨ moveHead g.nextDir front ∈ g.snake
    · exact ⟨_, step_collide fl gen g front rest hs hc⟩
    · have hin : inGrid (moveHead g.nextDir front) := by
        by_contra h; exact hc (Or.inl h)
      have hself : moveHead g.nextDir front ∉ g.snake := fun h => hc (Or.inr h)
      obtain ⟨g2, hg2, _⟩ := step_free_frame fl gen g front rest hs hin hself
      exact ⟨g2, hg2⟩

/-- What `spawnFood` leaves behind when called with the food unspawned. -/
theorem spawnFood_post (gen : Nat → Vector2i) (g : SnakeGame F) (hf : g.foodSpawned = false) :
    ((spawnFood gen g).foodSpawned = true →
      (spawnFood gen g).food ∉ g.snake ∧ ∃ n, (spawnFood gen g).food = gen n) ∧
    ((spawnFood gen g).foodSpawned = false → (spawnFood gen g).food ∈ g.snake) := by
  rcases first_free_or_none gen g.snake g.drawn with ⟨k, hk, hocc, hfree⟩ | hocc
  · rw [spawnFood_found gen g k hk hocc hfree]
    exact ⟨fun _ => ⟨hfree, _, rfl⟩, fun h => by simp at h⟩
  · rw [spawnFood_exhausted gen g hocc]
    refine ⟨fun h => ?_, fun _ => hocc 99 (by decide)⟩
    simp [hf] at h

theorem initialSnake_ok : SnakeOk initialSnake := by
  refine ⟨?_, ?_, ?_⟩ <;> decide

theorem snakeOk_push (snake : List Vector2i) (p : Vector2i) (h : SnakeOk snake)
    (hin : inGrid p) (hself : p ∉ snake) : SnakeOk (p :: snake) := by
  obtain ⟨h1, h2, h3⟩ := h
  refine ⟨?_, List.nodup_cons.2 ⟨hself, h2⟩, ?_⟩
  · intro q hq
    rcases List.mem_cons.1 hq with rfl | hq
    · exact hin
    · exact h1 q hq
  · simp only [List.length_cons]; omega

theorem snakeOk_move (snake : List Vector2i) (p : Vector2i) (h : SnakeOk snake)
    (hin : inGrid p) (hself : p ∉ snake) : SnakeOk (p :: snake.dropLast) := by
  obtain ⟨h1, h2, h3⟩ := h
  refine ⟨?_, List.nodup_cons.2 ⟨fun hm => hself (List.mem_of_mem_dropLast hm),
    h2.sublist (List.dropLast_sublist _)⟩, ?_⟩
  · intro q hq
    rcases List.mem_cons.1 hq with rfl | hq
    · exact hin
    · exact h1 q (List.mem_of_mem_dropLast hq)
  · simp only [List.length_cons, List.length_dropLast]; omega

/-- The snake after a step: untouched by a collision, otherwise the new head in front of
the old snake or of the old snake without its last segment. -/
theorem step_snake (fl : FloatOps F) (gen : Nat → Vector2i) (g g' : SnakeGame F)
    (front : Vector2i) (rest : List Vector2i) (hs : g.snake = front :: rest)
    (h : step fl gen g = some g') :
    g'.snake = g.snake ∨
    (inGrid (moveHead g.nextDir front) ∧ moveHead g.nextDir front ∉ g.snake ∧
      (g'.snake = moveHead g.nextDir front :: g.snake ∨
       g'.snake = moveHead g.nextDir front :: g.snake.dropLast)) := by
  by_cases hc : ¬ inGrid (moveHead g.nextDir front) ∨ moveHead g.nextDir front ∈ g.snake
  · rw [step_collide fl gen g front rest hs hc] at h
    rw [← Option.some.inj h]
    exact Or.inl rfl
  · have hin : inGrid (moveHead g.nextDir front) := by
      by_contra h; exact hc (Or.inl h)
    have hself : moveHead g.nextDir front ∉ g.snake := fun h => hc (Or.inr h)
    refine Or.inr ⟨hin, hself, ?_⟩
    by_cases hfood : moveHead g.nextDir front = g.food
    · rw [step_eat fl gen g front rest hs hin hself hfood] at h
      rw [← Option.some.inj h, (spawnFood_frame gen _).1]
      exact Or.inl rfl
    · rw [step_move fl gen g front rest hs hin hself hfood] at h
      rw [← Option.some.inj h]
      right
      split <;> simp [(spawnFood_frame gen _)]

theorem step_snakeOk (fl : FloatOps F) (gen : Nat → Vector2i) (g g' : SnakeGame F)
    (hok : SnakeOk g.snake) (h : step fl gen g = some g') : SnakeOk g'.snake := by
  cases hs : g.snake with
  | nil => simp [step, hs] at h
  | cons front rest =>
    rcases step_snake fl gen g g' front rest hs h with he | ⟨hin, hself, he | he⟩
    · rw [he]; exact hok
    · rw [he]; exact snakeOk_push _ _ hok hin hself
    · rw [he]; exact snakeOk_move _ _ hok hin hself

theorem keyPressed_snakeOk (fl : FloatOps F) (gen : Nat → Vector2i) (code : Key)
    (g : SnakeGame F) (hok : SnakeOk g.snake) : SnakeOk (keyPressed fl gen code g).snake := by
  rcases keyPressed_cases fl gen code g with ⟨_, _, he⟩ | ⟨p, n, he, _⟩
  · rw [he]
    unfold resetGame
    rw [(spawnFood_frame gen _).1]
    exact initialSnake_ok
  · rw [he]; exact hok

/-- In every reachable session the snake is on the grid, duplicate-free and of length ≥ 3. -/
theorem reachable_snakeOk (fl : FloatOps F) (gen : Nat → Vector2i) (g : SnakeGame F)
    (hr : Reachable fl gen g) : SnakeOk g.snake := by
  induction hr with
  | start => exact initialSnake_ok
  | @key code g0 _ ih => exact keyPressed_snakeOk fl gen code g0 ih
  | @tick g0 g1 _ _ _ hstep ih => exact step_snakeOk fl gen g0 g1 ih hstep

theorem snakeOk_ne_nil (snake : List Vector2i) (h : SnakeOk snake) : snake ≠ [] := by
  intro he
  have := h.2.2
  rw [he] at this
  simp at this

theorem reachable_processEvents (fl : FloatOps F) (gen : Nat → Vector2i) (events : List Event) :
    ∀ g : SnakeGame F, Reachable fl gen g → Reachable fl gen (processEvents fl gen events g) := by
  induction events with
  | nil => intro g h; exact h
  | cons e es ih =>
    intro g h
    have hstep : processEvents fl gen (e :: es) g
        = processEvents fl gen es (handleEvent fl gen g e) := rfl
    rw [hstep]
    apply ih
    cases e with
    | Closed => exact h
    | KeyPressed code => exact Reachable.key code h
    | Other => exact h

/-- An iteration of the loop of `run` always completes on a reachable session, and its
result is reachable. -/
theorem reachable_runIteration (fl : FloatOps F) (gen : Nat → Vector2i) (events : List Event)
    (elapsed : Bool) (g : SnakeGame F) (hr : Reachable fl gen g) :
    ∃ g', runIteration fl gen events elapsed g = some g' ∧ Reachable fl gen g' := by
  have h1 := reachable_processEvents fl gen events g hr
  unfold runIteration update
  simp only
  by_cases hrun : (!(processEvents fl gen events g).gameOver &&
      !(processEvents fl gen events g).paused) = true
  · simp only [hrun, if_true]
    cases elapsed with
    | false => exact ⟨_, rfl, h1⟩
    | true =>
      obtain ⟨g', hg'⟩ := step_total fl gen _
        (snakeOk_ne_nil _ (reachable_snakeOk fl gen _ h1))
      simp only [if_true]
      simp only [Bool.and_eq_true, Bool.not_eq_true'] at hrun
      exact ⟨g', hg', Reachable.tick h1 hrun.1 hrun.2 hg'⟩
  · simp only [hrun]
    exact ⟨_, rfl, h1⟩

theorem reachable_play (fl : FloatOps F) (gen : Nat → Vector2i)
    (frames : List (List Event × Bool)) :
    ∀ g : SnakeGame F, Reachable fl gen g →
      ∃ g', play fl gen frames g = some g' ∧ Reachable fl gen g' := by
  induction frames with
  | nil => intro g h; exact ⟨g, rfl, h⟩
  | cons f fs ih =>
    intro g h
    obtain ⟨events, elapsed⟩ := f
    obtain ⟨g1, hg1, hr1⟩ := reachable_runIteration fl gen events elapsed g h
    obtain ⟨g2, hg2, hr2⟩ := ih g1 hr1
    exact ⟨g2, by simp [play, hg1, hg2], hr2⟩

/-- A duplicate-free snake on the 40 x 30 grid has at most 1200 segments. -/
theorem snakeOk_length_le (snake : List Vector2i) (h : SnakeOk snake) : snake.length ≤ 1200 := by
  classical
  obtain ⟨hin, hnd, _⟩ := h
  have hsub : snake.toFinset ⊆
      (Finset.Ico (0 : Int) 40 ×ˢ Finset.Ico (0 : Int) 30).image
        (fun p => (⟨p.1, p.2⟩ : Vector2i)) := by
    intro p hp
    have hp' := hin p (List.mem_toFinset.1 hp)
    unfold inGrid at hp'
    rw [GRID_WIDTH_eq, GRID_HEIGHT_eq] at hp'
    rw [Finset.mem_image]
    refine ⟨(p.x, p.y), ?_, rfl⟩
    simp only [Finset.mem_product, Finset.mem_Ico]
    exact ⟨⟨hp'.1, hp'.2.1⟩, hp'.2.2.1, hp'.2.2.2⟩
  have hcard := Finset.card_le_card hsub
  rw [List.toFinset_card_of_nodup hnd] at hcard
  refine hcard.trans (Finset.card_image_le.trans ?_)
  simp [Finset.card_product]

theorem spawnFood_foodOk (gen : Nat → Vector2i) (hgen : ∀ n, inGrid (gen n)) (g : SnakeGame F)
    (hf : g.foodSpawned = false) : FoodOk (spawnFood gen g) := by
  intro hsp
  obtain ⟨hni, n, hn⟩ := (spawnFood_post gen g hf).1 hsp
  rw [(spawnFood_frame gen g).1]
  exact ⟨hn ▸ hgen n, hni⟩

theorem spawnFood_stale (gen : Nat → Vector2i) (g : SnakeGame F)
    (hf : g.foodSpawned = false) : StaleFood (spawnFood gen g) := by
  intro hsp
  rw [(spawnFood_frame gen g).1]
  exact Or.inl ((spawnFood_post gen g hf).2 hsp)

theorem step_foodOk (fl : FloatOps F) (gen : Nat → Vector2i) (hgen : ∀ n, inGrid (gen n))
    (g g' : SnakeGame F) (hok : FoodOk g) (h : step fl gen g = some g') : FoodOk g' := by
  cases hs : g.snake with
  | nil => simp [step, hs] at h
  | cons front rest =>
    by_cases hc : ¬ inGrid (moveHead g.nextDir front) ∨ moveHead g.nextDir front ∈ g.snake
    · rw [step_collide fl gen g front rest hs hc] at h
      rw [← Option.some.inj h]
      exact hok
    · have hin : inGrid (moveHead g.nextDir front) := by
        by_contra h; exact hc (Or.inl h)
      have hself : moveHead g.nextDir front ∉ g.snake := fun h => hc (Or.inr h)
      by_cases hfood : moveHead g.nextDir front = g.food
      · rw [step_eat fl gen g front rest hs hin hself hfood] at h
        rw [← Option.some.inj h]
        exact spawnFood_foodOk gen hgen _ rfl
      · rw [step_move fl gen g front rest hs hin hself hfood] at h
        rw [← Option.some.inj h]
        by_cases hsp : g.foodSpawned = true
        · simp only [hsp, if_true]
          intro _
          obtain ⟨h1, h2⟩ := hok hsp
          refine ⟨h1, ?_⟩
          intro hm
          rcases List.mem_cons.1 hm with he | hm
          · exact hfood he.symm
          · exact h2 (List.mem_of_mem_dropLast hm)
        · simp only [hsp]
          exact spawnFood_foodOk gen hgen _ rfl

theorem keyPressed_foodOk (fl : FloatOps F) (gen : Nat → Vector2i) (hgen : ∀ n, inGrid (gen n))
    (code : Key) (g : SnakeGame F) (hok : FoodOk g) : FoodOk (keyPressed fl gen code g) := by
  rcases keyPressed_cases fl gen code g with ⟨_, _, he⟩ | ⟨p, n, he, _⟩
  · rw [he]
    exact spawnFood_foodOk gen hgen _ rfl
  · rw [he]; exact hok

theorem reachable_foodOk (fl : FloatOps F) (gen : Nat → Vector2i) (hgen : ∀ n, inGrid (gen n))
    (g : SnakeGame F) (hr : Reachable fl gen g) : FoodOk g := by
  induction hr with
  | start => intro h; simp [ctor] at h
  | @key code g0 _ ih => exact keyPressed_foodOk fl gen hgen code g0 ih
  | @tick g0 g1 _ _ _ hstep ih => exact step_foodOk fl gen hgen g0 g1 ih hstep

/-- From the constructor's snake heading right, no buffered direction but LEFT can be
pending, and the new head is on the grid, off the snake and away from `(0, 0)`. -/
theorem first_step_head (d : Direction) (hd : d ≠ Direction.LEFT) :
    inGrid (moveHead d ⟨5, Int.tdiv GRID_HEIGHT 2⟩) ∧
    moveHead d ⟨5, Int.tdiv GRID_HEIGHT 2⟩ ∉ initialSnake ∧
    moveHead d ⟨5, Int.tdiv GRID_HEIGHT 2⟩ ≠ ⟨0, 0⟩ := by
  cases d
  · decide
  · decide
  · exact absurd rfl hd
  · decide

/-- A step from a session whose food is unspawned never eats: the score and the length of
the snake stay, and the unspawned coordinate is again accounted for. -/
theorem step_unspawned (fl : FloatOps F) (gen : Nat → Vector2i) (g : SnakeGame F)
    (hne : g.snake ≠ []) (hst : StaleFood g) (hdir : g.nextDir ≠ opposite g.currentDir)
    (hf : g.foodSpawned = false) :
    ∃ g', step fl gen g = some g' ∧ g'.score = g.score ∧
      g'.snake.length = g.snake.length ∧ StaleFood g' := by
  cases hs : g.snake with
  | nil => exact absurd hs hne
  | cons front rest =>
    have hmove : ∀ (hin : inGrid (moveHead g.nextDir front))
        (hself : moveHead g.nextDir front ∉ g.snake)
        (hfood : moveHead g.nextDir front ≠ g.food),
        ∃ g', step fl gen g = some g' ∧ g'.score = g.score ∧
          g'.snake.length = (front :: rest).length ∧ StaleFood g' := by
      intro hin hself hfood
      refine ⟨_, step_move fl gen g front rest hs hin hself hfood, ?_, ?_, ?_⟩
      · simp [hf, (spawnFood_frame gen _)]
      · simp [hf, (spawnFood_frame gen _), hs]
      · simp only [hf, Bool.false_eq_true, if_false]
        exact spawnFood_stale gen _ rfl
    rcases hst hf with hmem | ⟨hz, hinit, hright⟩
    · by_cases hc : ¬ inGrid (moveHead g.nextDir front) ∨ moveHead g.nextDir front ∈ g.snake
      · refine ⟨_, step_collide fl gen g front rest hs hc, rfl, by rw [hs], ?_⟩
        intro _
        exact Or.inl hmem
      · have hin : inGrid (moveHead g.nextDir front) := by
          by_contra h; exact hc (Or.inl h)
        have hself : moveHead g.nextDir front ∉ g.snake := fun h => hc (Or.inr h)
        exact hmove hin hself (fun he => hself (he ▸ hmem))
    · have hfront : front = ⟨5, Int.tdiv GRID_HEIGHT 2⟩ := by
        have := hs.symm.trans hinit
        simp only [initialSnake, List.cons.injEq] at this
        exact this.1
      have hd : g.nextDir ≠ Direction.LEFT := by
        rw [hright] at hdir
        simpa [opposite] using hdir
      obtain ⟨h1, h2, h3⟩ := first_step_head g.nextDir hd
      rw [← hfront] at h1 h2 h3
      exact hmove h1 (hinit ▸ h2) (hz ▸ h3)

theorem step_stale (fl : FloatOps F) (gen : Nat → Vector2i) (g g' : SnakeGame F)
    (hst : StaleFood g) (hdir : g.nextDir ≠ opposite g.currentDir)
    (h : step fl gen g = some g') : StaleFood g' := by
  by_cases hf : g.foodSpawned = false
  · have hne : g.snake ≠ [] := by
      intro he; simp [step, he] at h
    obtain ⟨g2, hg2, _, _, hst2⟩ := step_unspawned fl gen g hne hst hdir hf
    rw [hg2] at h
    exact Option.some.inj h ▸ hst2
  · have hsp : g.foodSpawned = true := by simpa using hf
    cases hs : g.snake with
    | nil => simp [step, hs] at h
    | cons front rest =>
      by_cases hc : ¬ inGrid (moveHead g.nextDir front) ∨ moveHead g.nextDir front ∈ g.snake
      · rw [step_collide fl gen g front rest hs hc] at h
        rw [← Option.some.inj h]
        intro hu
        simp [hsp] at hu
      · have hin : inGrid (moveHead g.nextDir front) := by
          by_contra h; exact hc (Or.inl h)
        have hself : moveHead g.nextDir front ∉ g.snake := fun h => hc (Or.inr h)
        by_cases hfood : moveHead g.nextDir front = g.food
        · rw [step_eat fl gen g front rest hs hin hself hfood] at h
          rw [← Option.some.inj h]
          exact spawnFood_stale gen _ rfl
        · rw [step_move fl gen g front rest hs hin hself hfood] at h
          rw [← Option.some.inj h]
          intro hu
          simp [hsp] at hu

theorem reachable_stale (fl : FloatOps F) (gen : Nat → Vector2i) (g : SnakeGame F)
    (hr : Reachable fl gen g) : StaleFood g := by
  induction hr with
  | start => intro _; exact Or.inr ⟨rfl, rfl, rfl⟩
  | @key code g0 _ ih =>
    rcases keyPressed_cases fl gen code g0 with ⟨_, _, he⟩ | ⟨p, n, he, _⟩
    · rw [he]
      exact spawnFood_stale gen _ rfl
    · rw [he]; exact ih
  | @tick g0 g1 hr0 _ _ hstep ih =>
    exact step_stale fl gen g0 g1 ih (reachable_dirs fl gen g0 hr0) hstep

theorem step_intRange (fl : FloatOps F) (gen : Nat → Vector2i) (g g' : SnakeGame F)
    (hok : SnakeOk g.snake) (hir : IntRange g) (h : step fl gen g = some g') : IntRange g' := by
  have hlen' := snakeOk_length_le _ (step_snakeOk fl gen g g' hok h)
  obtain ⟨h1, h2, h3, h4⟩ := hir
  cases hs : g.snake with
  | nil => simp [step, hs] at h
  | cons front rest =>
    by_cases hc : ¬ inGrid (moveHead g.nextDir front) ∨ moveHead g.nextDir front ∈ g.snake
    · rw [step_collide fl gen g front rest hs hc] at h
      rw [← Option.some.inj h]
      exact ⟨h1, h2, h3, h4⟩
    · have hin : inGrid (moveHead g.nextDir front) := by
        by_contra h; exact hc (Or.inl h)
      have hself : moveHead g.nextDir front ∉ g.snake := fun h => hc (Or.inr h)
      by_cases hfood : moveHead g.nextDir front = g.food
      · rw [step_eat fl gen g front rest hs hin hself hfood] at h
        have e := Option.some.inj h
        rw [← e, (spawnFood_frame gen _).1] at hlen'
        simp only [List.length_cons] at hlen'
        rw [← e]
        unfold IntRange
        rw [(spawnFood_frame gen _).1, (spawnFood_frame gen _).2.1,
          (spawnFood_frame gen _).2.2.1]
        simp only [List.length_cons, Nat.cast_add, Nat.cast_one]
        refine ⟨?_, ?_, ?_, ?_⟩
        · split <;> omega
        · split <;> omega
        · omega
        · omega
      · rw [step_move fl gen g front rest hs hin hself hfood] at h
        rw [← Option.some.inj h]
        have hl : (moveHead g.nextDir front :: g.snake.dropLast).length = g.snake.length := by
          rw [hs]; simp
        unfold IntRange
        split
        · simp only [hl]
          exact ⟨h1, h2, h3, h4⟩
        · rw [(spawnFood_frame gen _).1, (spawnFood_frame gen _).2.1,
            (spawnFood_frame gen _).2.2.1]
          simp only [hl]
          exact ⟨h1, h2, h3, h4⟩

theorem keyPressed_intRange (fl : FloatOps F) (gen : Nat → Vector2i) (code : Key)
    (g : SnakeGame F) (hir : IntRange g) : IntRange (keyPressed fl gen code g) := by
  rcases keyPressed_cases fl gen code g with ⟨_, _, he⟩ | ⟨p, n, he, _⟩
  · rw [he]
    unfold resetGame IntRange
    rw [(spawnFood_frame gen _).1, (spawnFood_frame gen _).2.1, (spawnFood_frame gen _).2.2.1]
    simp [initialSnake]
  · rw [he]; exact hir

theorem reachable_intRange (fl : FloatOps F) (gen : Nat → Vector2i) (g : SnakeGame F)
    (hr : Reachable fl gen g) : IntRange g := by
  induction hr with
  | start => simp [IntRange, ctor, initialSnake]
  | @key code g0 _ ih => exact keyPressed_intRange fl gen code g0 ih
  | @tick g0 g1 hr0 _ _ hstep ih =>
    exact step_intRange fl gen g0 g1 (reachable_snakeOk fl gen g0 hr0) ih hstep

/-- In every reachable session the level, the score and the operands of the arithmetic of
the next step lie inside the range of a 32-bit `int`: no step of a run overflows. -/
theorem reachable_int_range (fl : FloatOps F) (gen : Nat → Vector2i) (g : SnakeGame F)
    (hr : Reachable fl gen g) :
    1 ≤ g.level ∧ g.level ≤ 1198 ∧ 0 ≤ g.score ∧ g.score ≤ 14340060 ∧
    10 * g.level < 2 ^ 31 ∧ g.score + 10 * g.level < 2 ^ 31 ∧ g.level + 1 < 2 ^ 31 := by
  obtain ⟨h1, h2, h3, h4⟩ := reachable_intRange fl gen g hr
  have hl := snakeOk_length_le _ (reachable_snakeOk fl gen g hr)
  have hl' : (g.snake.length : Int) ≤ 1200 := by exact_mod_cast hl
  refine ⟨h1, ?_, h3, ?_, ?_, ?_, ?_⟩ <;> norm_num <;> omega

theorem play_framesTrain : play centiseconds genTrain framesTrain (ctor centiseconds) = some lagged := by
  decide

theorem play_framesCrash : play centiseconds genCorner framesCrash (ctor centiseconds) = some crashed := by
  decide

theorem reachable_lagged : Reachable centiseconds genTrain lagged := by
  obtain ⟨g, hg, hr⟩ := reachable_play centiseconds genTrain framesTrain _ Reachable.start
  rw [play_framesTrain] at hg
  exact Option.some.inj hg ▸ hr

theorem reachable_crashed : Reachable centiseconds genCorner crashed := by
  obtain ⟨g, hg, hr⟩ := reachable_play centiseconds genCorner framesCrash _ Reachable.start
  rw [play_framesCrash] at hg
  exact Option.some.inj hg ▸ hr

theorem genTrain_inGrid : ∀ n, inGrid (genTrain n) := by
  intro n
  unfold genTrain inGrid
  rw [GRID_WIDTH_eq, GRID_HEIGHT_eq]
  split
  · simp only; omega
  · simp

theorem reachable_pressArrows (fl : FloatOps F) (gen : Nat → Vector2i) (ds : List Direction)
    (g : SnakeGame F) (hr : Reachable fl gen g) : Reachable fl gen (pressArrows fl gen ds g) :=
  reachable_processEvents fl gen _ g hr

/-- C4: in every reachable session the buffered direction is not the reverse of the applied
direction; hence after any sequence of arrow keys the next discrete step applies a direction
that is not the reverse of the one applied before, and the arrow key of the exact reverse
leaves the buffered direction as it was, alone or after other arrow keys. The last part
states the same for two consecutive steps with arrow keys handled in between. -/
theorem C4_no_reversal (fl : FloatOps F) (gen : Nat → Vector2i) (g : SnakeGame F)
    (hr : Reachable fl gen g) :
    g.nextDir ≠ opposite g.currentDir ∧
    (∀ ds : List Direction, ∃ g', step fl gen (pressArrows fl gen ds g) = some g' ∧
      g'.currentDir = (pressArrows fl gen ds g).nextDir ∧
      g'.currentDir ≠ opposite g.currentDir) ∧
    (keyPressed fl gen (arrowKey (opposite g.currentDir)) g).nextDir = g.nextDir ∧
    (∀ ds : List Direction,
      (pressArrows fl gen (ds ++ [opposite g.currentDir]) g).nextDir
        = (pressArrows fl gen ds g).nextDir) ∧
    (g.gameOver = false → g.paused = false →
      ∃ g1, step fl gen g = some g1 ∧ g1.currentDir = g.nextDir ∧
        ∀ ds : List Direction, ∃ g2, step fl gen (pressArrows fl gen ds g1) = some g2 ∧
          g2.currentDir ≠ opposite g1.currentDir) := by
  have hd := reachable_dirs fl gen g hr
  have two : ∀ g0 : SnakeGame F, Reachable fl gen g0 → ∀ ds : List Direction,
      ∃ g', step fl gen (pressArrows fl gen ds g0) = some g' ∧
        g'.currentDir = (pressArrows fl gen ds g0).nextDir ∧
        g'.currentDir ≠ opposite g0.currentDir := by
    intro g0 hr0 ds
    obtain ⟨_, h2⟩ := pressArrows_dirs fl gen ds g0 (reachable_dirs fl gen g0 hr0)
    obtain ⟨g', hg'⟩ := step_total fl gen (pressArrows fl gen ds g0)
      (snakeOk_ne_nil _ (reachable_snakeOk fl gen _ (reachable_pressArrows fl gen ds g0 hr0)))
    obtain ⟨h3, _⟩ := step_dirs fl gen _ _ hg'
    exact ⟨g', hg', h3, h3 ▸ h2⟩
  refine ⟨hd, two g hr, ?_, ?_, ?_⟩
  rotate_left 2
  · intro hover hpaused
    obtain ⟨g1, hg1⟩ := step_total fl gen g (snakeOk_ne_nil _ (reachable_snakeOk fl gen g hr))
    refine ⟨g1, hg1, (step_dirs fl gen _ _ hg1).1, ?_⟩
    intro ds
    obtain ⟨g2, h1, _, h3⟩ := two g1 (Reachable.tick hr hover hpaused hg1) ds
    exact ⟨g2, h1, h3⟩
  · rw [keyPressed_reverse]
  · intro ds
    obtain ⟨h1, _⟩ := pressArrows_dirs fl gen ds g hd
    have happ : pressArrows fl gen (ds ++ [opposite g.currentDir]) g
        = keyPressed fl gen (arrowKey (opposite g.currentDir)) (pressArrows fl gen ds g) := by
      simp [pressArrows, processEvents, handleEvent]
    rw [happ, ← h1, keyPressed_reverse]

/-- C4 at the session reached by pressing the up arrow in the constructor's state. -/
theorem C4_witness :
    (keyPressed centiseconds genCorner Key.Up (ctor centiseconds)).nextDir
      ≠ opposite (keyPressed centiseconds genCorner Key.Up (ctor centiseconds)).currentDir :=
  (C4_no_reversal centiseconds genCorner _ (Reachable.key Key.Up Reachable.start)).1

/-- C6: every session reachable from the constructor by key presses, restarts and discrete
steps taken while neither over nor paused, with all samples on the grid, has every segment
on the grid, no two segments on one coordinate, at least three segments, and a spawned food
on the grid and on no segment. -/
theorem C6_reachable_grid_invariant (fl : FloatOps F) (gen : Nat → Vector2i)
    (hgen : ∀ n, 0 ≤ (gen n).x ∧ (gen n).x < GRID_WIDTH ∧ 0 ≤ (gen n).y ∧ (gen n).y < GRID_HEIGHT)
    (g : SnakeGame F) (hr : Reachable fl gen g) :
    (∀ p ∈ g.snake, 0 ≤ p.x ∧ p.x < GRID_WIDTH ∧ 0 ≤ p.y ∧ p.y < GRID_HEIGHT) ∧
    g.snake.Nodup ∧ 3 ≤ g.snake.length ∧
    (g.foodSpawned = true →
      (0 ≤ g.food.x ∧ g.food.x < GRID_WIDTH ∧ 0 ≤ g.food.y ∧ g.food.y < GRID_HEIGHT) ∧
      g.food ∉ g.snake) := by
  obtain ⟨h1, h2, h3⟩ := reachable_snakeOk fl gen g hr
  exact ⟨h1, h2, h3, reachable_foodOk fl gen hgen g hr⟩

/-- C6 at the session reached by sixteen steps on the stream `genTrain`. -/
theorem C6_witness :
    (∀ p ∈ lagged.snake, 0 ≤ p.x ∧ p.x < GRID_WIDTH ∧ 0 ≤ p.y ∧ p.y < GRID_HEIGHT) ∧
    lagged.snake.Nodup ∧ 3 ≤ lagged.snake.length ∧
    (lagged.foodSpawned = true →
      (0 ≤ lagged.food.x ∧ lagged.food.x < GRID_WIDTH ∧
        0 ≤ lagged.food.y ∧ lagged.food.y < GRID_HEIGHT) ∧
      lagged.food ∉ lagged.snake) :=
  C6_reachable_grid_invariant centiseconds genTrain genTrain_inGrid lagged reachable_lagged

/-- C10: in every reachable session whose food is not marked spawned, a discrete step leaves
the score unchanged and does not grow the snake, because the unspawned food coordinate lies
on a segment of the snake, or is the default `(0, 0)` while the snake is still the
constructor's and heads right, from where one step cannot reach `(0, 0)`. -/
theorem C10_unspawned_food_not_eaten (fl : FloatOps F) (gen : Nat → Vector2i) (g : SnakeGame F)
    (hr : Reachable fl gen g) (hf : g.foodSpawned = false) :
    (g.food ∈ g.snake ∨
      (g.food = ⟨0, 0⟩ ∧ g.snake = initialSnake ∧ g.currentDir = Direction.RIGHT ∧
        ∀ d, d ≠ opposite g.currentDir →
          moveHead d ⟨5, Int.tdiv GRID_HEIGHT 2⟩ ≠ g.food)) ∧
    ∃ g', step fl gen g = some g' ∧ g'.score = g.score ∧
      g'.snake.length = g.snake.length := by
  have hst := reachable_stale fl gen g hr
  have hd := reachable_dirs fl gen g hr
  constructor
  · rcases hst hf with h | ⟨h1, h2, h3⟩
    · exact Or.inl h
    · refine Or.inr ⟨h1, h2, h3, ?_⟩
      intro d hdne
      rw [h3] at hdne
      rw [h1]
      exact (first_step_head d hdne).2.2
  · obtain ⟨g', h1, h2, h3, _⟩ := step_unspawned fl gen g
      (snakeOk_ne_nil _ (reachable_snakeOk fl gen g hr)) hst hd hf
    exact ⟨g', h1, h2, h3⟩

/-- C10 at the constructor's state, whose food is the unspawned default `(0, 0)`. -/
theorem C10_witness :
    ∃ g', step centiseconds genCorner (ctor centiseconds) = some g' ∧
      g'.score = (ctor centiseconds).score ∧
      g'.snake.length = (ctor centiseconds).snake.length :=
  (C10_unspawned_food_not_eaten centiseconds genCorner (ctor centiseconds)
    Reachable.start rfl).2

/-- C1 at the scenario of the specification: `[(5,10),(4,10),(3,10)]` heading right, no food
at `(6, 10)`. -/
theorem C1_witness :
    ∃ g', step centiseconds genCorner scenarioMove = some g' ∧
      g'.snake = [⟨6, 10⟩, ⟨5, 10⟩, ⟨4, 10⟩] ∧ g'.score = scenarioMove.score ∧
      g'.gameOver = false ∧ g'.paused = false := by
  obtain ⟨_, g', h1, _, h3, h4, _, h6⟩ :=
    C1_step_moves_or_grows centiseconds genCorner scenarioMove ⟨5, 10⟩ [⟨4, 10⟩, ⟨3, 10⟩]
      rfl rfl rfl (by decide) (by decide)
  obtain ⟨h7, _, h9⟩ := h6 (by decide)
  exact ⟨g', h1, h7, h9, h3, h4⟩

/-- C2 at a snake that leaves the grid through the left wall. -/
theorem C2_witness :
    ∃ g', step centiseconds genCorner scenarioWall = some g' ∧ g'.gameOver = true ∧
      g'.snake = scenarioWall.snake ∧ g'.score = scenarioWall.score := by
  obtain ⟨g', h1, _, _, h4⟩ :=
    C2_step_game_over_iff centiseconds genCorner scenarioWall ⟨0, 10⟩ [⟨0, 11⟩, ⟨1, 11⟩]
      rfl rfl
  obtain ⟨h5, h6, h7, _⟩ := h4 (Or.inl (by decide))
  exact ⟨g', h1, by rw [h5], h6, h7⟩

/-- C3 at the scenario of the specification with the food at `(6, 10)`: the score grows by
`10 * level` and the level stays 1. -/
theorem C3_witness :
    ∃ g', step centiseconds genCorner scenarioFood = some g' ∧
      g'.score = scenarioFood.score + 10 * scenarioFood.level ∧
      g'.level = scenarioFood.level := by
  obtain ⟨g', h1, h2, _, h4, _⟩ :=
    C3_step_eat_scoring centiseconds genCorner scenarioFood ⟨5, 10⟩ [⟨4, 10⟩, ⟨3, 10⟩]
      rfl (by decide) (by decide) (by decide)
  refine ⟨g', h1, h2, (h4 ?_).1⟩
  rw [h2]
  decide

/-- C5 at the constructor's state with the stream `genTrain`. -/
theorem C5_witness :
    (ctor centiseconds).foodSpawned = false ∧
    ((spawnFood genTrain (ctor centiseconds)).foodSpawned = true ↔
      ∃ i, i < 100 ∧ genTrain ((ctor centiseconds).drawn + i) ∉ (ctor centiseconds).snake) :=
  ⟨rfl, (C5_spawnFood genTrain (ctor centiseconds) rfl).1⟩

/-- C7 at the session that ended at the upper wall. -/
theorem C7_witness :
    crashed.gameOver = true ∧
    (keyPressed centiseconds genCorner Key.R crashed).snake = (ctor centiseconds).snake ∧
    (keyPressed centiseconds genCorner Key.R crashed).score = 0 ∧
    (keyPressed centiseconds genCorner Key.R crashed).gameOver = false :=
  ⟨rfl, ((C7_restart_key centiseconds genCorner crashed).1 rfl).2.1,
    ((C7_restart_key centiseconds genCorner crashed).1 rfl).2.2.2.2.1,
    ((C7_restart_key centiseconds genCorner crashed).1 rfl).2.2.2.2.2.2.2.1⟩

/-- A reachable session that is over in which the pause key does flip the paused flag. -/
theorem C8_counterexample :
    Reachable centiseconds genCorner crashed ∧ crashed.gameOver = true ∧
    crashed.paused = false ∧
    (keyPressed centiseconds genCorner Key.P crashed).paused = true ∧
    keyPressed centiseconds genCorner Key.P crashed ≠ crashed :=
  ⟨reachable_crashed, rfl, rfl, by decide, by decide⟩

/-- C9: the level-up check does not run in a step without food. The session `lagged` is
reachable by play (fifteen foods eaten), is neither over nor paused, and has score 470 and
level 9, so that `score / 50 = 9` exceeds `level - 1 = 8`; the discrete step from it neither
collides nor eats and leaves the level at 9 and the speed interval as it was, where the
level-up check of every step, and the comment `Level up every 50 points` of the source, ask
for level 10. -/
theorem C9_level_lags_behind_score :
    Reachable centiseconds genTrain lagged ∧ lagged.gameOver = false ∧
    lagged.paused = false ∧ lagged.score = 470 ∧ lagged.level = 9 ∧
    Int.tdiv lagged.score 50 > lagged.level - 1 ∧
    step centiseconds genTrain lagged
      = some { lagged with
               snake := (List.range 18).map (fun i => (⟨22 - (i : Int), 15⟩ : Vector2i)) } :=
  ⟨reachable_lagged, rfl, rfl, rfl, rfl, by decide, by decide⟩

/-- Moving into the cell that the last segment would vacate in the same step is a collision:
the session is over and the snake stays where it was. -/
theorem step_into_tail_cell :
    step centiseconds genCorner scenarioTail
      = some { scenarioTail with currentDir := Direction.RIGHT, gameOver := true } := by
  decide

end SnakeGame
